import Mathlib

/-! Shallow embedding of the jcarbon TensorFlow callback module
(`src/service/src/main/python/jcarbon/tensorflow/callbacks.py`).

A backend report is modelled as a list of samples, each keyed by
`(component_type, component_id, unit, source)` with a rational value.
The Keras `logs` dictionary is modelled as an association list from
string keys to rational values, preserving insertion order; a `None`
or empty dictionary is modelled by the empty list (both are falsy in
Python, so `add_jcarbon_log` treats them identically).
-/

namespace JCarbon

/-- One backend measurement row, as produced by `to_dataframe(client.read(...))`. -/
structure Sample where
  component_type : String
  component_id : String
  unit : String
  source : String
  value : ℚ
deriving DecidableEq

/-- The grouping key used by `df.groupby(['component_type', 'component_id', 'unit', 'source'])`. -/
structure SampleKey where
  component_type : String
  component_id : String
  unit : String
  source : String
deriving DecidableEq

/-- The Keras metrics dictionary (`logs`), as an insertion-ordered association list. -/
abbrev Logs := List (String × ℚ)

/-- The `UNITS` table of the module (unit name to short label). -/
def UNITS (u : String) : String :=
  if u = "GRAMS_OF_CO2" then "CO2"
  else if u = "JOULES" then "J"
  else if u = "ACTIVITY" then "%"
  else if u = "NANOSECONDS" then "ns"
  else if u = "JIFFIES" then ""
  else if u = "WATTS" then "W"
  else ""

/-- The grouping key of one sample. -/
def sampleKey (s : Sample) : SampleKey :=
  ⟨s.component_type, s.component_id, s.unit, s.source⟩

/-- Lexicographic comparison of grouping keys; pandas `groupby` iterates the
groups in sorted key order (its default `sort=True`). -/
def keyLe (a b : SampleKey) : Bool :=
  if a.component_type ≠ b.component_type then decide (a.component_type < b.component_type)
  else if a.component_id ≠ b.component_id then decide (a.component_id < b.component_id)
  else if a.unit ≠ b.unit then decide (a.unit < b.unit)
  else !(decide (b.source < a.source))

/-- Insertion step of the sort on grouping keys. -/
def insertKey (k : SampleKey) : List SampleKey → List SampleKey
  | [] => [k]
  | x :: xs => if keyLe k x then k :: x :: xs else x :: insertKey k xs

/-- Insertion sort on grouping keys (models pandas sorting group keys). -/
def sortKeys : List SampleKey → List SampleKey
  | [] => []
  | x :: xs => insertKey x (sortKeys xs)

/-- The distinct grouping keys of a report, in first-occurrence order. -/
def dedupKeys (ks : List SampleKey) : List SampleKey :=
  ks.foldl (fun acc k => if k ∈ acc then acc else acc ++ [k]) []

/-- The group keys a `groupby` over the report iterates, in sorted order. -/
def groupKeys (df : List Sample) : List SampleKey :=
  sortKeys (dedupKeys (df.map sampleKey))

/-- The values of one group, in the report's row order. -/
def groupValues (df : List Sample) (k : SampleKey) : List ℚ :=
  (df.filter (fun s => decide (sampleKey s = k))).map Sample.value

/-- `df[df > 0].sum()`: the sum of the strictly positive values of a group. -/
def posSum (vs : List ℚ) : ℚ :=
  (vs.filter (fun v => decide (0 < v))).sum

/-- Python dictionary assignment `logs[k] = v`: overwrite in place, else append. -/
def setLog : Logs → String → ℚ → Logs
  | [], k, v => [(k, v)]
  | (a, b) :: rest, k, v => if a = k then (k, v) :: rest else (a, b) :: setLog rest k v

/-- Python dictionary lookup (first matching key wins; keys are unique by construction). -/
def lookupLog : Logs → String → Option ℚ
  | [], _ => none
  | (a, b) :: rest, k => if a = k then some b else lookupLog rest k

/-- The key string written for a group: `f-string` of component type and unit label. -/
def writtenKey (k : SampleKey) : String :=
  k.component_type ++ "-" ++ UNITS k.unit

/-- The body of the loop in `add_jcarbon_log`: energy groups write their
positive-value sum under `writtenKey`; other groups are skipped. -/
def logStep (df : List Sample) (l : Logs) (k : SampleKey) : Logs :=
  if k.unit = "JOULES" then setLog l (writtenKey k) (posSum (groupValues df k)) else l

/-- `add_jcarbon_log(df, logs)` from the source: a falsy `logs` (None or the
empty dictionary) is left untouched; otherwise each group whose unit is
`JOULES` writes the sum of its strictly positive values into `logs`. -/
def add_jcarbon_log (df : List Sample) (logs : Logs) : Logs :=
  if logs.isEmpty then logs
  else (groupKeys df).foldl (logStep df) logs

/-- The value the loop of `add_jcarbon_log` leaves under `key`, if any group
writes it: the last group in iteration order wins. -/
def lastWrite (df : List Sample) (key : String) : List SampleKey → Option ℚ
  | [] => none
  | k :: ks =>
    match lastWrite df key ks with
    | some v => some v
    | none =>
      if k.unit = "JOULES" ∧ writtenKey k = key then some (posSum (groupValues df k)) else none

/-- The three-sample report of the digest test case: CPU energy values +3, -1, +2. -/
def c4Samples : List Sample :=
  [⟨"CPU", "0", "JOULES", "rapl", 3⟩,
   ⟨"CPU", "0", "JOULES", "rapl", -1⟩,
   ⟨"CPU", "0", "JOULES", "rapl", 2⟩]

/-- The backend RPC calls issued through `self.client`, in issue order. -/
inductive Op
  | purge
  | start
  | stop
  | read
deriving DecidableEq

/-- Occurrence count of one backend call in a trace. -/
def countOp (o : Op) : List Op → Nat
  | [] => 0
  | x :: xs => (if x = o then 1 else 0) + countOp o xs

/-- Holds when every `start` in the trace is immediately preceded by its
`purge` (the pair `start_jcarbon` issues). -/
def purgeBeforeStart : List Op → Bool
  | [] => true
  | Op.purge :: Op.start :: rest => purgeBeforeStart rest
  | Op.start :: _ => false
  | _ :: rest => purgeBeforeStart rest

namespace Chunking

/-- State of `JCarbonChunkingCallback`: the boundary clock `self.time`, the
accumulation `self.last_report`, the per-epoch dictionary `self.reports`,
the Keras `logs` map the callback writes into, plus the backend-side session
flag and a counter threading the backend's successive reports. -/
structure CState where
  time : ℚ
  last_report : Option (List Sample)
  reports : List (Nat × List Sample)
  readCount : Nat
  logs : Logs
  sessionOpen : Bool
deriving DecidableEq

/-- The calls of `start_jcarbon`: `purge()` then `start(pid, period_ms)`. -/
def startOps : List Op := [Op.purge, Op.start]

/-- State effect of `start_jcarbon`: the session opens. -/
def startState (s : CState) : CState := { s with sessionOpen := true }

/-- The calls of `stop_jcarbon`: `stop(pid)` then `read(pid, signals)`. -/
def stopOps : List Op := [Op.stop, Op.read]

/-- State effect of `stop_jcarbon`: the session closes and one more backend
report has been handed out. -/
def stopState (s : CState) : CState :=
  { s with sessionOpen := false, readCount := s.readCount + 1 }

/-- The report `stop_jcarbon` returns, as the backend's next report. -/
def stopReport (reads : Nat → List Sample) (s : CState) : List Sample :=
  reads s.readCount

/-- `pd.concat([self.last_report, r])` with the `None` first-chunk case. -/
def mergeReport : Option (List Sample) → List Sample → List Sample
  | none, r => r
  | some acc, r => acc ++ r

/-- `on_epoch_begin`: reset the boundary clock and the accumulation, then
`start_jcarbon`. -/
def on_epoch_begin (s : CState) (now : ℚ) : CState × List Op :=
  (startState { s with time := now, last_report := none }, startOps)

/-- `on_train_batch_end`: if `curr - self.time > self.chunking_period_sec`,
advance the clock, `stop_jcarbon`, merge the returned report into the
accumulation, update the log digest, and `start_jcarbon` again; otherwise do
nothing. -/
def on_train_batch_end (reads : Nat → List Sample) (toDF : List Sample → List Sample)
    (cp : ℚ) (s : CState) (now : ℚ) : CState × List Op :=
  if now - s.time > cp then
    let s1 := { s with time := now }
    let r := toDF (stopReport reads s1)
    let s2 := stopState s1
    let merged := mergeReport s2.last_report r
    let s3 := { s2 with last_report := some merged, logs := add_jcarbon_log merged s2.logs }
    (startState s3, stopOps ++ startOps)
  else (s, [])

/-- `on_epoch_end`: unconditionally `stop_jcarbon`, merge the final report,
update the log digest, and store the epoch's accumulated report under the
epoch index. -/
def on_epoch_end (reads : Nat → List Sample) (toDF : List Sample → List Sample)
    (s : CState) (e : Nat) : CState × List Op :=
  let r := toDF (stopReport reads s)
  let s1 := stopState s
  let merged := mergeReport s1.last_report r
  ({ s1 with last_report := some merged,
             logs := add_jcarbon_log merged s1.logs,
             reports := s1.reports ++ [(e, merged)] }, stopOps)

/-- The training-loop lifecycle events the chunking callback reacts to. -/
inductive Ev
  | epochBegin (e : Nat) (now : ℚ)
  | batchEnd (now : ℚ)
  | epochEnd (e : Nat)

/-- Dispatch one lifecycle event. -/
def runEvent (reads : Nat → List Sample) (toDF : List Sample → List Sample)
    (cp : ℚ) (s : CState) : Ev → CState × List Op
  | Ev.epochBegin _ now => on_epoch_begin s now
  | Ev.batchEnd now => on_train_batch_end reads toDF cp s now
  | Ev.epochEnd e => on_epoch_end reads toDF s e

/-- Run a sequence of lifecycle events, collecting the backend-call trace. -/
def runEvents (reads : Nat → List Sample) (toDF : List Sample → List Sample)
    (cp : ℚ) (s : CState) : List Ev → CState × List Op
  | [] => (s, [])
  | ev :: evs =>
    let p := runEvent reads toDF cp s ev
    let q := runEvents reads toDF cp p.1 evs
    (q.1, p.2 ++ q.2)

/-- A freshly constructed controller: no open session, empty report
dictionary, the given Keras logs map. -/
def initState (t : ℚ) (l : Logs) : CState := ⟨t, none, [], 0, l, false⟩

/-- The number of iteration-end events (at the given times) at which the
boundary test `curr - self.time > self.chunking_period_sec` fires, with the
clock jumping to the firing event's time exactly as the handler does. -/
def boundaryCount (cp : ℚ) : ℚ → List ℚ → Nat
  | _, [] => 0
  | t, b :: bs => if b - t > cp then boundaryCount cp b bs + 1 else boundaryCount cp t bs

/-- The event times at which the boundary test fires. -/
def boundaryTimes (cp : ℚ) : ℚ → List ℚ → List ℚ
  | _, [] => []
  | t, b :: bs => if b - t > cp then b :: boundaryTimes cp b bs else boundaryTimes cp t bs

/-- Error model of `on_train_batch_end` at a chunk boundary: the state left
behind when the `k`-th backend call of the boundary path raises
(`k = 0`: `stop`, `1`: `read`, `2`: `purge`, `3`: `start`). The raising call
itself has no effect, everything sequenced before it has happened, and
`k ≥ 4` is the run in which nothing raises. Off a boundary the handler
issues no backend call, so no raise can occur and the state is unchanged. -/
def on_train_batch_end_abort (reads : Nat → List Sample) (toDF : List Sample → List Sample)
    (cp : ℚ) (s : CState) (now : ℚ) (k : Nat) : CState :=
  if now - s.time > cp then
    let s1 := { s with time := now }
    match k with
    | 0 => s1
    | 1 => { s1 with sessionOpen := false }
    | 2 | 3 =>
      let r := toDF (stopReport reads s1)
      let s2 := stopState s1
      let merged := mergeReport s2.last_report r
      { s2 with last_report := some merged, logs := add_jcarbon_log merged s2.logs }
    | _ + 4 => (on_train_batch_end reads toDF cp s now).1
  else s

end Chunking

namespace Chunking2

/-- State of `JCarbonChunkingCallback2`: as the chunking state, but the
accumulation is the Python list of raw (not yet dataframed) chunk reports. -/
structure CState2 where
  time : ℚ
  last_report : Option (List (List Sample))
  reports : List (Nat × List Sample)
  readCount : Nat
  logs : Logs
  sessionOpen : Bool
deriving DecidableEq

/-- `self.last_report = [r]` or `self.last_report.append(r)`. -/
def appendRaw : Option (List (List Sample)) → List Sample → List (List Sample)
  | none, r => [r]
  | some l, r => l ++ [r]

/-- `on_epoch_begin` of the list-accumulation variant (same as the eager one). -/
def on_epoch_begin (s : CState2) (now : ℚ) : CState2 × List Op :=
  ({ s with time := now, last_report := none, sessionOpen := true }, Chunking.startOps)

/-- `on_train_batch_end` of the list-accumulation variant: on a boundary it
appends the raw stop report to the list and restarts; it performs no merge
and writes nothing into the logs map. -/
def on_train_batch_end (reads : Nat → List Sample) (cp : ℚ)
    (s : CState2) (now : ℚ) : CState2 × List Op :=
  if now - s.time > cp then
    ({ s with time := now,
              last_report := some (appendRaw s.last_report (reads s.readCount)),
              readCount := s.readCount + 1,
              sessionOpen := true }, Chunking.stopOps ++ Chunking.startOps)
  else (s, [])

/-- `on_epoch_end` of the list-accumulation variant: append the final raw
report, then store `pd.concat(list(map(to_dataframe, self.last_report)))`
under the epoch index; the logs map is not touched. -/
def on_epoch_end (reads : Nat → List Sample) (toDF : List Sample → List Sample)
    (s : CState2) (e : Nat) : CState2 × List Op :=
  let acc := appendRaw s.last_report (reads s.readCount)
  ({ s with last_report := some acc,
            readCount := s.readCount + 1,
            sessionOpen := false,
            reports := s.reports ++ [(e, (acc.map toDF).flatten)] }, Chunking.stopOps)

/-- Dispatch one lifecycle event for the list-accumulation variant. -/
def runEvent (reads : Nat → List Sample) (toDF : List Sample → List Sample)
    (cp : ℚ) (s : CState2) : Chunking.Ev → CState2 × List Op
  | Chunking.Ev.epochBegin _ now => on_epoch_begin s now
  | Chunking.Ev.batchEnd now => on_train_batch_end reads cp s now
  | Chunking.Ev.epochEnd e => on_epoch_end reads toDF s e

/-- Run a sequence of lifecycle events for the list-accumulation variant. -/
def runEvents (reads : Nat → List Sample) (toDF : List Sample → List Sample)
    (cp : ℚ) (s : CState2) : List Chunking.Ev → CState2 × List Op
  | [] => (s, [])
  | ev :: evs =>
    let p := runEvent reads toDF cp s ev
    let q := runEvents reads toDF cp p.1 evs
    (q.1, p.2 ++ q.2)

/-- A freshly constructed list-accumulation controller. -/
def initState (t : ℚ) (l : Logs) : CState2 := ⟨t, none, [], 0, l, false⟩

end Chunking2

namespace Experiment

/-- Python `int(q)` for a rational: truncation toward zero. -/
def pyInt (q : ℚ) : Int := Int.tdiv q.num (q.den : Int)

/-- One buffered batch row `{'batch': b, 'start': startNs, 'end': endNs}`. -/
structure TsRow where
  batch : Nat
  startNs : Int
  endNs : Int
deriving DecidableEq

/-- A timeline row after `.assign(epoch=epoch)`. -/
structure TsRowE where
  batch : Nat
  startNs : Int
  endNs : Int
  epoch : Nat
deriving DecidableEq

/-- State of `JCarbonExperimentCallback`: the inherited chunking state, the
per-epoch dictionary `self.timestamps`, the cumulative table
`self.batch_timestamps`, the per-epoch buffer `self.curr_batch_timestamps`,
and the wall clock captured at batch begin. -/
structure EState where
  cc : Chunking.CState
  timestamps : List (Nat × List TsRowE)
  batch_timestamps : Option (List TsRow)
  curr_batch_timestamps : Option (List TsRow)
  batch_start : ℚ
deriving DecidableEq

/-- `.assign(epoch=epoch)` on one row. -/
def stampRow (e : Nat) (r : TsRow) : TsRowE := ⟨r.batch, r.startNs, r.endNs, e⟩

/-- `on_epoch_begin`: the inherited chunking begin, then clear the buffer. -/
def on_epoch_begin (s : EState) (now : ℚ) : EState × List Op :=
  let p := Chunking.on_epoch_begin s.cc now
  ({ s with cc := p.1, curr_batch_timestamps := none }, p.2)

/-- `on_train_batch_begin`: record the batch's start wall clock (the
inherited `on_train_batch_begin` is the framework no-op). -/
def on_train_batch_begin (s : EState) (now : ℚ) : EState × List Op :=
  ({ s with batch_start := now }, [])

/-- `on_train_batch_end`: run the inherited chunking handler, then append
`{'batch': b, 'start': int(1e9 * batch_start), 'end': int(1e9 * curr)}`
to the per-epoch buffer. -/
def on_train_batch_end (reads : Nat → List Sample) (toDF : List Sample → List Sample)
    (cp : ℚ) (s : EState) (b : Nat) (now : ℚ) : EState × List Op :=
  let p := Chunking.on_train_batch_end reads toDF cp s.cc now
  let row : TsRow := ⟨b, pyInt (10 ^ 9 * s.batch_start), pyInt (10 ^ 9 * now)⟩
  ({ s with cc := p.1,
            curr_batch_timestamps := some ((s.curr_batch_timestamps).getD [] ++ [row]) }, p.2)

/-- `on_epoch_end`: run the inherited chunking end, then rebuild the
cumulative table and stamp it with the epoch. In the source the `None`
branch is `pd.DataFrame.from_dict(curr)` and the other branch is
`pd.concat([pd.DataFrame.from_dict(curr)])`, whose singleton list omits the
previous `self.batch_timestamps`; both branches therefore produce a table
holding only the current epoch's buffer. -/
def on_epoch_end (reads : Nat → List Sample) (toDF : List Sample → List Sample)
    (s : EState) (e : Nat) : EState × List Op :=
  let p := Chunking.on_epoch_end reads toDF s.cc e
  let newBT : List TsRow :=
    match s.batch_timestamps with
    | none => (s.curr_batch_timestamps).getD []
    | some _ => (s.curr_batch_timestamps).getD []
  ({ s with cc := p.1,
            batch_timestamps := some newBT,
            timestamps := s.timestamps ++ [(e, newBT.map (stampRow e))] }, p.2)

/-- Lifecycle events for the experiment callback (batch begins matter here). -/
inductive EvE
  | epochBegin (e : Nat) (now : ℚ)
  | batchBegin (b : Nat) (now : ℚ)
  | batchEnd (b : Nat) (now : ℚ)
  | epochEnd (e : Nat)

/-- Dispatch one lifecycle event for the experiment callback. -/
def runEvent (reads : Nat → List Sample) (toDF : List Sample → List Sample)
    (cp : ℚ) (s : EState) : EvE → EState × List Op
  | EvE.epochBegin _ now => on_epoch_begin s now
  | EvE.batchBegin _ now => on_train_batch_begin s now
  | EvE.batchEnd b now => on_train_batch_end reads toDF cp s b now
  | EvE.epochEnd e => on_epoch_end reads toDF s e

/-- Run a sequence of lifecycle events for the experiment callback. -/
def runEvents (reads : Nat → List Sample) (toDF : List Sample → List Sample)
    (cp : ℚ) (s : EState) : List EvE → EState × List Op
  | [] => (s, [])
  | ev :: evs =>
    let p := runEvent reads toDF cp s ev
    let q := runEvents reads toDF cp p.1 evs
    (q.1, p.2 ++ q.2)

/-- A freshly constructed experiment controller. -/
def initState (t : ℚ) (l : Logs) : EState :=
  ⟨Chunking.initState t l, [], none, none, 0⟩

end Experiment

namespace Chunking

/-- The strict per-epoch event order `epochBegin, (iterationEnd)*, epochEnd`. -/
def epochEvents (e : Nat) (t0 : ℚ) (bs : List ℚ) : List Ev :=
  Ev.epochBegin e t0 :: (bs.map Ev.batchEnd ++ [Ev.epochEnd e])

/-- The batch-event times at which `on_train_batch_end` issued backend calls
(i.e. at which the chunk boundary fired), running the handler itself. -/
def firedBatchTimes (reads : Nat → List Sample) (toDF : List Sample → List Sample)
    (cp : ℚ) (s : CState) : List ℚ → List ℚ
  | [] => []
  | b :: bs =>
    let p := on_train_batch_end reads toDF cp s b
    (if p.2.isEmpty then [] else [b]) ++ firedBatchTimes reads toDF cp p.1 bs

end Chunking

/-- A backend that always reports nothing. -/
def readsNone : Nat → List Sample := fun _ => []

/-- A backend whose every report is one CPU energy sample of 3 J. -/
def readsCpu : Nat → List Sample := fun _ => [⟨"CPU", "0", "JOULES", "rapl", 3⟩]

/-- The iteration-end times of the chunk-boundary test case (seconds from epoch start). -/
def c2Times : List ℚ := [1/2, 1, 3/2, 21/10, 26/10]

/-- Two energy groups of the same component type (CPU) that differ only in
component id and source: values +3 and +2. -/
def c8Samples : List Sample :=
  [⟨"CPU", "0", "JOULES", "s1", 3⟩,
   ⟨"CPU", "1", "JOULES", "s2", 2⟩]

/-- Occurrence count of one sample row in a report. -/
def countSample (x : Sample) : List Sample → Nat
  | [] => 0
  | y :: ys => (if y = x then 1 else 0) + countSample x ys

/-- The simulation relation between the eager-concatenation state
(`JCarbonChunkingCallback`) and the list-accumulation state
(`JCarbonChunkingCallback2`): same boundary clock, same backend cursor, same
session, same stored per-epoch reports, and the eager accumulation is the
dataframe concatenation of the raw chunk list. -/
def Chunking2.refines (toDF : List Sample → List Sample)
    (s : Chunking.CState) (s2 : Chunking2.CState2) : Prop :=
  s.time = s2.time ∧ s.readCount = s2.readCount ∧ s.sessionOpen = s2.sessionOpen
  ∧ s.reports = s2.reports
  ∧ s.last_report = Option.map (fun l => (l.map toDF).flatten) s2.last_report

/-- Two one-batch epochs driven through the experiment callback: epoch 0
with its batch spanning [0.1 s, 0.2 s], epoch 1 with its batch spanning
[1.1 s, 1.2 s]. -/
def c5Events : List Experiment.EvE :=
  [Experiment.EvE.epochBegin 0 0, Experiment.EvE.batchBegin 0 (1/10),
   Experiment.EvE.batchEnd 0 (2/10), Experiment.EvE.epochEnd 0,
   Experiment.EvE.epochBegin 1 1, Experiment.EvE.batchBegin 0 (11/10),
   Experiment.EvE.batchEnd 0 (12/10), Experiment.EvE.epochEnd 1]

lemma lookupLog_setLog (l : Logs) (k : String) (v : ℚ) (q : String) :
    lookupLog (setLog l k v) q = if q = k then some v else lookupLog l q := by
  induction l with
  | nil =>
    by_cases h : q = k
    · simp [setLog, lookupLog, h]
    · simp [setLog, lookupLog, h, Ne.symm h]
  | cons hd tl ih =>
    obtain ⟨a, b⟩ := hd
    by_cases h1 : a = k
    · subst h1
      by_cases h2 : q = a
      · simp [setLog, lookupLog, h2]
      · simp [setLog, lookupLog, h2, Ne.symm h2]
    · by_cases h2 : q = a
      · subst h2
        simp [setLog, lookupLog, h1, fun h => h1 (h : q = k)]
      · simp [setLog, lookupLog, h1, Ne.symm h2, ih]

lemma lookupLog_foldl_logStep (df : List Sample) (key : String) :
    ∀ (ks : List SampleKey) (l : Logs),
      lookupLog (ks.foldl (logStep df) l) key =
        match lastWrite df key ks with
        | some v => some v
        | none => lookupLog l key := by
  intro ks
  induction ks with
  | nil => intro l; simp [lastWrite]
  | cons k ks ih =>
    intro l
    rw [List.foldl_cons, ih]
    cases hrest : lastWrite df key ks with
    | some v => simp [lastWrite, hrest]
    | none =>
      simp only [lastWrite, hrest]
      by_cases hu : k.unit = "JOULES"
      · by_cases hk : writtenKey k = key
        · simp [logStep, hu, hk, lookupLog_setLog]
        · simp [logStep, hu, hk, lookupLog_setLog]
          intro h
          exact absurd h.symm hk
      · simp [logStep, hu]

/-- Characterization of the digest: on a non-empty metrics map, looking up a
key after `add_jcarbon_log` yields the positive-value sum of the last matching
`JOULES` group in groupby iteration order, or the old value if no group writes it. -/
lemma lookupLog_add_jcarbon_log (df : List Sample) (logs : Logs) (key : String)
    (h : logs ≠ []) :
    lookupLog (add_jcarbon_log df logs) key =
      match lastWrite df key (groupKeys df) with
      | some v => some v
      | none => lookupLog logs key := by
  rw [add_jcarbon_log, if_neg (by simpa [List.isEmpty_iff] using h)]
  exact lookupLog_foldl_logStep df key (groupKeys df) logs

/-- C4 counterexample to the claim as stated over every metrics map: on the
empty (falsy) metrics map the guard `if logs:` makes `add_jcarbon_log` write
nothing, so the digest value for the CPU energy key is absent, not 5. -/
theorem add_jcarbon_log_empty_map_writes_nothing :
    add_jcarbon_log c4Samples [] = []
    ∧ lookupLog (add_jcarbon_log c4Samples []) "CPU-J" = none := by
  constructor <;> rfl

/-- C4 (amended to non-empty metrics maps): on a non-empty metrics map,
`add_jcarbon_log` groups the samples by (componentType, componentId, unit,
source) and the value found under a key afterwards is the strictly-positive
value sum of the last `JOULES` group writing that key (`<componentType>-J`),
or the previous value if no group writes it; in particular for the samples
[(CPU, JOULES, +3), (CPU, JOULES, -1), (CPU, JOULES, +2)] the CPU energy key
holds 5 (the negative value excluded). -/
theorem add_jcarbon_log_digest (df : List Sample) (logs : Logs) (key : String)
    (h : logs ≠ []) :
    (lookupLog (add_jcarbon_log df logs) key =
      match lastWrite df key (groupKeys df) with
      | some v => some v
      | none => lookupLog logs key)
    ∧ lookupLog (add_jcarbon_log c4Samples logs) "CPU-J" = some 5 := by
  refine ⟨lookupLog_add_jcarbon_log df logs key h, ?_⟩
  rw [lookupLog_add_jcarbon_log c4Samples logs "CPU-J" h]
  norm_num +decide [c4Samples, groupKeys, dedupKeys, sortKeys, insertKey, keyLe, sampleKey,
    lastWrite, writtenKey, UNITS, groupValues, posSum]

/-- Witness for `add_jcarbon_log_digest` at a concrete non-empty metrics map. -/
theorem add_jcarbon_log_digest_witness :
    lookupLog (add_jcarbon_log c4Samples [("loss", 0)]) "CPU-J" = some 5 :=
  (add_jcarbon_log_digest c4Samples [("loss", 0)] "CPU-J" (by decide)).2

/-- C8: the digest key combines only the component type and the unit label —
component id and source do not appear in it — so `JOULES` groups sharing a
component type write the same key and successive groups overwrite it: on a
non-empty map the final value under a key is the positive-value sum of the
last matching group in groupby iteration order, and for the two CPU groups
(id 0, +3) and (id 1, +2) the final CPU-J value is 2, the last group's sum,
not the total 5 over both groups. -/
theorem add_jcarbon_log_last_group_wins (df : List Sample) (logs : Logs) (key : String)
    (k1 k2 : SampleKey) (h : logs ≠ []) (h1 : k1.unit = k2.unit)
    (h2 : k1.component_type = k2.component_type) :
    writtenKey k1 = writtenKey k2
    ∧ (lookupLog (add_jcarbon_log df logs) key =
        match lastWrite df key (groupKeys df) with
        | some v => some v
        | none => lookupLog logs key)
    ∧ lookupLog (add_jcarbon_log c8Samples logs) "CPU-J" = some 2
    ∧ (2 : ℚ) ≠ 3 + 2 := by
  refine ⟨?_, lookupLog_add_jcarbon_log df logs key h, ?_, by norm_num⟩
  · rw [writtenKey, writtenKey, h1, h2]
  · rw [lookupLog_add_jcarbon_log c8Samples logs "CPU-J" h]
    norm_num +decide [c8Samples, groupKeys, dedupKeys, sortKeys, insertKey, keyLe, sampleKey,
      lastWrite, writtenKey, UNITS, groupValues, posSum]

/-- Witness for `add_jcarbon_log_last_group_wins` at a concrete map. -/
theorem add_jcarbon_log_last_group_wins_witness :
    lookupLog (add_jcarbon_log c8Samples [("loss", 0)]) "CPU-J" = some 2 :=
  (add_jcarbon_log_last_group_wins c8Samples [("loss", 0)] "CPU-J"
    ⟨"CPU", "0", "JOULES", "s1"⟩ ⟨"CPU", "1", "JOULES", "s2"⟩ (by decide) rfl rfl).2.2.1

lemma countSample_append (x : Sample) (a b : List Sample) :
    countSample x (a ++ b) = countSample x a + countSample x b := by
  induction a with
  | nil => simp [countSample]
  | cons y ys ih => simp [countSample, ih, Nat.add_assoc]

/-- C7: the report merge the callbacks perform is associative concatenation:
folding `mergeReport` over [r1, r2] and then appending r3 equals the one-step
concatenation `pd.concat([r1, r2, r3])`; moreover concatenation keeps each
(componentType, componentId, unit, source) group's samples in order (the
filtered group of a merge is the two filtered groups in order) and drops no
sample (occurrence counts add). -/
theorem mergeReport_assoc_no_reorder_no_drop (r1 r2 r3 acc : List Sample) (k : SampleKey)
    (x : Sample) :
    Chunking.mergeReport
        (some (Chunking.mergeReport (some (Chunking.mergeReport none r1)) r2)) r3
      = ([r1, r2, r3] : List (List Sample)).flatten
    ∧ (Chunking.mergeReport (some acc) r3).filter (fun y => decide (sampleKey y = k))
      = acc.filter (fun y => decide (sampleKey y = k))
          ++ r3.filter (fun y => decide (sampleKey y = k))
    ∧ countSample x (Chunking.mergeReport (some acc) r3)
      = countSample x acc + countSample x r3 := by
  refine ⟨?_, ?_, ?_⟩
  · simp [Chunking.mergeReport]
  · simp [Chunking.mergeReport, List.filter_append]
  · simp [Chunking.mergeReport, countSample_append]

/-- C6: an epoch with zero iterations (`epochBegin` immediately followed by
`epochEnd`) issues exactly one start/stop pair — the backend trace is
precisely purge, start, stop, read — and stores exactly one Report for the
epoch, the single backend report covering the whole epoch window; no
iteration-end event occurs, so the chunk-boundary test is never evaluated. -/
theorem chunking_zero_iteration_epoch (reads : Nat → List Sample)
    (toDF : List Sample → List Sample) (cp : ℚ) (s : Chunking.CState) (e : Nat) (t0 : ℚ) :
    (Chunking.runEvents reads toDF cp s (Chunking.epochEvents e t0 [])).2
        = [Op.purge, Op.start, Op.stop, Op.read]
    ∧ (Chunking.runEvents reads toDF cp s (Chunking.epochEvents e t0 [])).1.reports
        = s.reports ++ [(e, toDF (reads s.readCount))]
    ∧ countOp Op.start (Chunking.runEvents reads toDF cp s (Chunking.epochEvents e t0 [])).2 = 1
    ∧ countOp Op.stop (Chunking.runEvents reads toDF cp s (Chunking.epochEvents e t0 [])).2 = 1
    ∧ (Chunking.runEvents reads toDF cp s (Chunking.epochEvents e t0 [])).1.sessionOpen = false := by
  refine ⟨?_, ?_, ?_, ?_, ?_⟩ <;>
    simp [Chunking.runEvents, Chunking.runEvent, Chunking.epochEvents,
      Chunking.on_epoch_begin, Chunking.on_epoch_end, Chunking.startState,
      Chunking.stopState, Chunking.stopReport, Chunking.mergeReport,
      Chunking.startOps, Chunking.stopOps, countOp]

/-- C2: with a 2 s chunking period and the boundary clock initialized at
epoch start (time 0), iteration-end events at 0.5, 1.0, 1.5, 2.1 and 2.6 make
the boundary test `curr - self.time > self.chunking_period_sec` fire exactly
once, at the 2.1 event: running the handler itself, backend calls are issued
at exactly that event time, and the boundary-times recursion agrees. -/
theorem chunking_boundary_fires_once_at_21 :
    Chunking.firedBatchTimes readsNone id 2
        (Chunking.on_epoch_begin (Chunking.initState 0 []) 0).1 c2Times = [21/10]
    ∧ Chunking.boundaryTimes 2 0 c2Times = [21/10] := by
  constructor <;>
    norm_num [Chunking.firedBatchTimes, Chunking.boundaryTimes, Chunking.on_epoch_begin,
      Chunking.on_train_batch_end, Chunking.initState, Chunking.startState,
      Chunking.stopState, Chunking.stopReport, Chunking.mergeReport, Chunking.startOps,
      Chunking.stopOps, c2Times, readsNone, add_jcarbon_log]

lemma countOp_append (o : Op) (t1 t2 : List Op) :
    countOp o (t1 ++ t2) = countOp o t1 + countOp o t2 := by
  induction t1 with
  | nil => simp [countOp]
  | cons x xs ih => simp [countOp, ih, Nat.add_assoc]

lemma runEvents_cons (reads : Nat → List Sample) (toDF : List Sample → List Sample)
    (cp : ℚ) (s : Chunking.CState) (ev : Chunking.Ev) (evs : List Chunking.Ev) :
    Chunking.runEvents reads toDF cp s (ev :: evs)
      = ((Chunking.runEvents reads toDF cp (Chunking.runEvent reads toDF cp s ev).1 evs).1,
          (Chunking.runEvent reads toDF cp s ev).2
            ++ (Chunking.runEvents reads toDF cp
                  (Chunking.runEvent reads toDF cp s ev).1 evs).2) := rfl

lemma runEvents_append (reads : Nat → List Sample) (toDF : List Sample → List Sample)
    (cp : ℚ) (l1 l2 : List Chunking.Ev) :
    ∀ s : Chunking.CState,
      Chunking.runEvents reads toDF cp s (l1 ++ l2)
        = ((Chunking.runEvents reads toDF cp
              (Chunking.runEvents reads toDF cp s l1).1 l2).1,
            (Chunking.runEvents reads toDF cp s l1).2
              ++ (Chunking.runEvents reads toDF cp
                    (Chunking.runEvents reads toDF cp s l1).1 l2).2) := by
  induction l1 with
  | nil => intro s; simp [Chunking.runEvents]
  | cons ev evs ih =>
    intro s
    simp only [List.cons_append, runEvents_cons, ih, List.append_assoc]

/-- At a fired boundary, the handler's trace and the new clock. -/
lemma on_train_batch_end_fired (reads : Nat → List Sample) (toDF : List Sample → List Sample)
    (cp : ℚ) (s : Chunking.CState) (b : ℚ) (h : b - s.time > cp) :
    (Chunking.on_train_batch_end reads toDF cp s b).2
        = [Op.stop, Op.read, Op.purge, Op.start]
    ∧ (Chunking.on_train_batch_end reads toDF cp s b).1.time = b := by
  constructor <;>
    simp [Chunking.on_train_batch_end, h, Chunking.startState, Chunking.stopState,
      Chunking.stopOps, Chunking.startOps]

/-- Over the batch segment of an epoch, the start and stop counts both equal
the number of boundary firings from the current clock. -/
lemma batch_segment_counts (reads : Nat → List Sample) (toDF : List Sample → List Sample)
    (cp : ℚ) (bs : List ℚ) :
    ∀ s : Chunking.CState,
      countOp Op.start
          (Chunking.runEvents reads toDF cp s (bs.map Chunking.Ev.batchEnd)).2
        = Chunking.boundaryCount cp s.time bs
      ∧ countOp Op.stop
          (Chunking.runEvents reads toDF cp s (bs.map Chunking.Ev.batchEnd)).2
        = Chunking.boundaryCount cp s.time bs := by
  induction bs with
  | nil => intro s; simp [Chunking.runEvents, Chunking.boundaryCount, countOp]
  | cons b bs ih =>
    intro s
    by_cases h : b - s.time > cp
    · obtain ⟨hops, htime⟩ := on_train_batch_end_fired reads toDF cp s b h
      obtain ⟨ih1, ih2⟩ := ih (Chunking.on_train_batch_end reads toDF cp s b).1
      rw [htime] at ih1 ih2
      simp [List.map_cons, runEvents_cons, Chunking.runEvent, countOp_append,
        hops, ih1, ih2, Chunking.boundaryCount, h, countOp]
      omega
    · obtain ⟨ih1, ih2⟩ := ih s
      have hstate : (Chunking.on_train_batch_end reads toDF cp s b).1 = s := by
        simp [Chunking.on_train_batch_end, h]
      have hops : (Chunking.on_train_batch_end reads toDF cp s b).2 = [] := by
        simp [Chunking.on_train_batch_end, h]
      simp [List.map_cons, runEvents_cons, Chunking.runEvent, countOp_append,
        hops, hstate, ih1, ih2, Chunking.boundaryCount, h, countOp]

/-- C1: for every epoch driven in the strict order
`epochBegin, (iterationEnd)*, epochEnd`, the number of backend `start` calls
equals the number of `stop` calls, both equal `1 +` the number of
iteration-end events at which the boundary test fired, and when `epochEnd`
completes the session is closed. -/
theorem chunking_epoch_start_stop_balance (reads : Nat → List Sample)
    (toDF : List Sample → List Sample) (cp : ℚ) (s : Chunking.CState)
    (e : Nat) (t0 : ℚ) (bs : List ℚ) :
    countOp Op.start (Chunking.runEvents reads toDF cp s (Chunking.epochEvents e t0 bs)).2
      = countOp Op.stop (Chunking.runEvents reads toDF cp s (Chunking.epochEvents e t0 bs)).2
    ∧ countOp Op.start (Chunking.runEvents reads toDF cp s (Chunking.epochEvents e t0 bs)).2
      = 1 + Chunking.boundaryCount cp t0 bs
    ∧ (Chunking.runEvents reads toDF cp s (Chunking.epochEvents e t0 bs)).1.sessionOpen
      = false := by
  have hbegin : (Chunking.runEvent reads toDF cp s (Chunking.Ev.epochBegin e t0)).1.time = t0 := rfl
  have hbeginOps : (Chunking.runEvent reads toDF cp s (Chunking.Ev.epochBegin e t0)).2
      = [Op.purge, Op.start] := rfl
  obtain ⟨hc1, hc2⟩ := batch_segment_counts reads toDF cp bs
    (Chunking.runEvent reads toDF cp s (Chunking.Ev.epochBegin e t0)).1
  rw [hbegin] at hc1 hc2
  have hendOps : ∀ s' : Chunking.CState,
      (Chunking.runEvents reads toDF cp s' [Chunking.Ev.epochEnd e]).2
        = [Op.stop, Op.read] := fun s' => rfl
  have hendSession : ∀ s' : Chunking.CState,
      (Chunking.runEvents reads toDF cp s' [Chunking.Ev.epochEnd e]).1.sessionOpen
        = false := fun s' => rfl
  rw [Chunking.epochEvents, runEvents_cons, runEvents_append]
  refine ⟨?_, ?_, hendSession _⟩
  · simp [countOp_append, hc1, hc2, hbeginOps, hendOps, countOp]
    omega
  · simp [countOp_append, hc1, hc2, hbeginOps, hendOps, countOp]

/-- C10: every session start goes through `start_jcarbon`, whose `purge()`
immediately precedes `start(pid, period_ms)`: over every sequence of
lifecycle events — epoch begins and chunk-boundary restarts alike — every
`start` in the backend trace is immediately preceded by its `purge`. -/
theorem chunking_purge_before_every_start (reads : Nat → List Sample)
    (toDF : List Sample → List Sample) (cp : ℚ) (evs : List Chunking.Ev) :
    ∀ s : Chunking.CState,
      purgeBeforeStart (Chunking.runEvents reads toDF cp s evs).2 = true := by
  induction evs with
  | nil => intro s; rfl
  | cons ev evs ih =>
    intro s
    rw [runEvents_cons]
    cases ev with
    | epochBegin e now =>
      have : (Chunking.runEvent reads toDF cp s (Chunking.Ev.epochBegin e now)).2
          = [Op.purge, Op.start] := rfl
      rw [this]
      exact ih _
    | batchEnd now =>
      by_cases h : now - s.time > cp
      · have : (Chunking.runEvent reads toDF cp s (Chunking.Ev.batchEnd now)).2
            = [Op.stop, Op.read, Op.purge, Op.start] :=
          (on_train_batch_end_fired reads toDF cp s now h).1
        rw [this]
        exact ih _
      · have : (Chunking.runEvent reads toDF cp s (Chunking.Ev.batchEnd now)).2 = [] := by
          simp [Chunking.runEvent, Chunking.on_train_batch_end, h]
        rw [this]
        exact ih _
    | epochEnd e =>
      have : (Chunking.runEvent reads toDF cp s (Chunking.Ev.epochEnd e)).2
          = [Op.stop, Op.read] := rfl
      rw [this]
      exact ih _

/-- C9 counterexample to "the session remains as it was" for an arbitrary
raising backend call: with the session open at a fired boundary (clock 0,
event at time 3, period 2), if the second backend call of the boundary path
(`read`) raises, the session has already been closed by the preceding
`stop`, so it is not as it was before the event. -/
theorem chunking_abort_read_changes_session :
    (Chunking.on_train_batch_end_abort readsNone id 2
        (Chunking.on_epoch_begin (Chunking.initState 0 []) 0).1 3 1).sessionOpen = false
    ∧ ((Chunking.on_epoch_begin (Chunking.initState 0 []) 0).1).sessionOpen = true := by
  constructor
  · norm_num [Chunking.on_train_batch_end_abort, Chunking.on_epoch_begin,
      Chunking.initState, Chunking.startState]
  · rfl

/-- C9 (amended): in the chunked `on_train_batch_end` the boundary clock
`self.time` is set to the current time before any backend call is issued, so
whichever backend call of the boundary path raises, the state left behind
has the clock already advanced to the event time; and when the raising call
is the first one (`stop`), the accumulation, the session, the stored reports
and the logs are all exactly as they were before the event. `k = 4` is the
raise-free run, tying the abort model to the handler. -/
theorem chunking_clock_advances_before_backend_calls (reads : Nat → List Sample)
    (toDF : List Sample → List Sample) (cp : ℚ) (s : Chunking.CState) (now : ℚ)
    (h : now - s.time > cp) :
    (∀ k, (Chunking.on_train_batch_end_abort reads toDF cp s now k).time = now)
    ∧ (Chunking.on_train_batch_end_abort reads toDF cp s now 0).last_report = s.last_report
    ∧ (Chunking.on_train_batch_end_abort reads toDF cp s now 0).sessionOpen = s.sessionOpen
    ∧ (Chunking.on_train_batch_end_abort reads toDF cp s now 0).reports = s.reports
    ∧ (Chunking.on_train_batch_end_abort reads toDF cp s now 0).logs = s.logs
    ∧ Chunking.on_train_batch_end_abort reads toDF cp s now 4
        = (Chunking.on_train_batch_end reads toDF cp s now).1 := by
  refine ⟨?_, ?_, ?_, ?_, ?_, ?_⟩
  · intro k
    obtain _ | _ | _ | _ | k := k <;>
      simp [Chunking.on_train_batch_end_abort, Chunking.on_train_batch_end, h,
        Chunking.startState, Chunking.stopState]
  all_goals
    simp [Chunking.on_train_batch_end_abort, h]

/-- Witness for `chunking_clock_advances_before_backend_calls` at a concrete
fired boundary. -/
theorem chunking_clock_advances_before_backend_calls_witness :
    (Chunking.on_train_batch_end_abort readsNone id 2 (Chunking.initState 0 []) 3 0).last_report
      = (Chunking.initState 0 []).last_report :=
  (chunking_clock_advances_before_backend_calls readsNone id 2 (Chunking.initState 0 [])
    3 (by norm_num [Chunking.initState])).2.1

lemma runEvents2_cons (reads : Nat → List Sample) (toDF : List Sample → List Sample)
    (cp : ℚ) (s2 : Chunking2.CState2) (ev : Chunking.Ev) (evs : List Chunking.Ev) :
    Chunking2.runEvents reads toDF cp s2 (ev :: evs)
      = ((Chunking2.runEvents reads toDF cp (Chunking2.runEvent reads toDF cp s2 ev).1 evs).1,
          (Chunking2.runEvent reads toDF cp s2 ev).2
            ++ (Chunking2.runEvents reads toDF cp
                  (Chunking2.runEvent reads toDF cp s2 ev).1 evs).2) := rfl

/-- The eager merge of a dataframed report equals dataframing after the raw
list append. -/
lemma mergeReport_appendRaw (toDF : List Sample → List Sample)
    (o : Option (List (List Sample))) (r : List Sample) :
    Chunking.mergeReport (Option.map (fun l => (l.map toDF).flatten) o) (toDF r)
      = ((Chunking2.appendRaw o r).map toDF).flatten := by
  cases o <;> simp [Chunking.mergeReport, Chunking2.appendRaw]

/-- One lifecycle event preserves the simulation between the two modes and
produces the same backend-call trace. -/
lemma refines_step (reads : Nat → List Sample) (toDF : List Sample → List Sample)
    (cp : ℚ) (s : Chunking.CState) (s2 : Chunking2.CState2) (ev : Chunking.Ev)
    (h : Chunking2.refines toDF s s2) :
    Chunking2.refines toDF (Chunking.runEvent reads toDF cp s ev).1
        (Chunking2.runEvent reads toDF cp s2 ev).1
    ∧ (Chunking.runEvent reads toDF cp s ev).2 = (Chunking2.runEvent reads toDF cp s2 ev).2 := by
  obtain ⟨ht, hr, hs, hrep, hlast⟩ := h
  cases ev with
  | epochBegin e now =>
    exact ⟨⟨rfl, hr, rfl, hrep, rfl⟩, rfl⟩
  | batchEnd now =>
    by_cases hb : now - s2.time > cp
    · have hb' : now - s.time > cp := by rw [ht]; exact hb
      refine ⟨⟨?_, ?_, ?_, ?_, ?_⟩, ?_⟩ <;>
        simp [Chunking.runEvent, Chunking2.runEvent, Chunking.on_train_batch_end,
          Chunking2.on_train_batch_end, hb, hb', Chunking.startState, Chunking.stopState,
          Chunking.stopReport, hr, hrep, ht, hlast, mergeReport_appendRaw]
    · have hb' : ¬ now - s.time > cp := by rw [ht]; exact hb
      have e1 : Chunking.runEvent reads toDF cp s (Chunking.Ev.batchEnd now) = (s, []) := by
        simp [Chunking.runEvent, Chunking.on_train_batch_end, hb']
      have e2 : Chunking2.runEvent reads toDF cp s2 (Chunking.Ev.batchEnd now) = (s2, []) := by
        simp [Chunking2.runEvent, Chunking2.on_train_batch_end, hb]
      rw [e1, e2]
      exact ⟨⟨ht, hr, hs, hrep, hlast⟩, rfl⟩
  | epochEnd e =>
    refine ⟨⟨?_, ?_, ?_, ?_, ?_⟩, ?_⟩ <;>
      simp [Chunking.runEvent, Chunking2.runEvent, Chunking.on_epoch_end,
        Chunking2.on_epoch_end, Chunking.stopState, Chunking.stopReport, hr, hrep, ht,
        hlast, mergeReport_appendRaw]

/-- The simulation holds along every event sequence, with equal traces. -/
lemma refines_run (reads : Nat → List Sample) (toDF : List Sample → List Sample)
    (cp : ℚ) (evs : List Chunking.Ev) :
    ∀ (s : Chunking.CState) (s2 : Chunking2.CState2), Chunking2.refines toDF s s2 →
      Chunking2.refines toDF (Chunking.runEvents reads toDF cp s evs).1
          (Chunking2.runEvents reads toDF cp s2 evs).1
      ∧ (Chunking.runEvents reads toDF cp s evs).2
          = (Chunking2.runEvents reads toDF cp s2 evs).2 := by
  induction evs with
  | nil => intro s s2 h; exact ⟨h, rfl⟩
  | cons ev evs ih =>
    intro s s2 h
    obtain ⟨h1, h2⟩ := refines_step reads toDF cp s s2 ev h
    obtain ⟨h3, h4⟩ := ih _ _ h1
    refine ⟨h3, ?_⟩
    rw [runEvents_cons, runEvents2_cons]
    simp only []
    rw [h2, h4]

/-- The list-accumulation variant never writes into the logs map. -/
lemma chunking2_logs_const (reads : Nat → List Sample) (toDF : List Sample → List Sample)
    (cp : ℚ) (evs : List Chunking.Ev) :
    ∀ s2 : Chunking2.CState2,
      (Chunking2.runEvents reads toDF cp s2 evs).1.logs = s2.logs := by
  induction evs with
  | nil => intro s2; rfl
  | cons ev evs ih =>
    intro s2
    rw [runEvents2_cons]
    have hev : (Chunking2.runEvent reads toDF cp s2 ev).1.logs = s2.logs := by
      cases ev with
      | epochBegin e now => rfl
      | batchEnd now =>
        by_cases hb : now - s2.time > cp <;>
          simp [Chunking2.runEvent, Chunking2.on_train_batch_end, hb]
      | epochEnd e => rfl
    rw [show ((Chunking2.runEvents reads toDF cp (Chunking2.runEvent reads toDF cp s2 ev).1 evs).1,
          (Chunking2.runEvent reads toDF cp s2 ev).2
            ++ (Chunking2.runEvents reads toDF cp
                  (Chunking2.runEvent reads toDF cp s2 ev).1 evs).2).1
        = (Chunking2.runEvents reads toDF cp (Chunking2.runEvent reads toDF cp s2 ev).1 evs).1
      from rfl, ih, hev]

/-- C3 counterexample to identical final output: the two modes do not write
the same LogDigest entries into the metrics map. For a zero-batch epoch, a
backend reporting one CPU energy sample of 3 J and the non-empty initial map
[(loss, 0)], the eager mode writes the CPU-J entry at epoch end while the
list-accumulation mode leaves the map untouched. -/
theorem chunking2_digest_differs :
    (Chunking.runEvents readsCpu id 2 (Chunking.initState 0 [("loss", 0)])
        [Chunking.Ev.epochBegin 0 0, Chunking.Ev.epochEnd 0]).1.logs
      = [("loss", 0), ("CPU-J", 3)]
    ∧ (Chunking2.runEvents readsCpu id 2 (Chunking2.initState 0 [("loss", 0)])
        [Chunking.Ev.epochBegin 0 0, Chunking.Ev.epochEnd 0]).1.logs
      = [("loss", 0)]
    ∧ (Chunking.runEvents readsCpu id 2 (Chunking.initState 0 [("loss", 0)])
        [Chunking.Ev.epochBegin 0 0, Chunking.Ev.epochEnd 0]).1.logs
      ≠ (Chunking2.runEvents readsCpu id 2 (Chunking2.initState 0 [("loss", 0)])
        [Chunking.Ev.epochBegin 0 0, Chunking.Ev.epochEnd 0]).1.logs := by
  have h1 : (Chunking.runEvents readsCpu id 2 (Chunking.initState 0 [("loss", 0)])
      [Chunking.Ev.epochBegin 0 0, Chunking.Ev.epochEnd 0]).1.logs
      = [("loss", 0), ("CPU-J", 3)] := by
    norm_num +decide [Chunking.runEvents, Chunking.runEvent, Chunking.on_epoch_begin,
      Chunking.on_epoch_end, Chunking.startState, Chunking.stopState, Chunking.stopReport,
      Chunking.mergeReport, Chunking.initState, readsCpu, add_jcarbon_log, groupKeys,
      dedupKeys, sortKeys, insertKey, keyLe, sampleKey, logStep, setLog, writtenKey,
      UNITS, groupValues, posSum]
  have h2 : (Chunking2.runEvents readsCpu id 2 (Chunking2.initState 0 [("loss", 0)])
      [Chunking.Ev.epochBegin 0 0, Chunking.Ev.epochEnd 0]).1.logs
      = [("loss", 0)] :=
    chunking2_logs_const readsCpu id 2 _ _
  refine ⟨h1, h2, ?_⟩
  rw [h1, h2]
  decide

/-- C3 (amended): for every identical sequence of lifecycle events and
identical backend-returned reports, the eager-concatenation mode and the
list-accumulation mode store identical per-epoch Reports and issue identical
backend-call traces — they differ only in when merge cost is paid — but the
list-accumulation mode writes no LogDigest entries at all: its logs map is
left exactly as initialized, unlike the eager mode's. -/
theorem chunking2_refines_chunking_reports (reads : Nat → List Sample)
    (toDF : List Sample → List Sample) (cp : ℚ) (evs : List Chunking.Ev)
    (t0 : ℚ) (l0 : Logs) :
    (Chunking.runEvents reads toDF cp (Chunking.initState t0 l0) evs).1.reports
      = (Chunking2.runEvents reads toDF cp (Chunking2.initState t0 l0) evs).1.reports
    ∧ (Chunking.runEvents reads toDF cp (Chunking.initState t0 l0) evs).2
      = (Chunking2.runEvents reads toDF cp (Chunking2.initState t0 l0) evs).2
    ∧ (Chunking2.runEvents reads toDF cp (Chunking2.initState t0 l0) evs).1.logs = l0 := by
  have h0 : Chunking2.refines toDF (Chunking.initState t0 l0) (Chunking2.initState t0 l0) := by
    refine ⟨rfl, rfl, rfl, rfl, rfl⟩
  obtain ⟨hrel, htr⟩ := refines_run reads toDF cp evs _ _ h0
  exact ⟨hrel.2.2.2.1, htr, chunking2_logs_const reads toDF cp evs _⟩

/-- C5: at `epochEnd` the experiment callback stamps the buffered rows with
the current epoch (`self.timestamps` ends up with epoch 0's row stamped 0
and epoch 1's row stamped 1), but the cumulative table
`self.batch_timestamps` is rebuilt from the current buffer alone — after the
second epoch it holds only epoch 1's row, the row buffered in epoch 0 having
been dropped instead of preserved. -/
theorem experiment_cumulative_table_drops_earlier_epochs :
    (Experiment.runEvents readsNone id 2 (Experiment.initState 0 []) c5Events).1.batch_timestamps
      = some [⟨0, 1100000000, 1200000000⟩]
    ∧ (Experiment.runEvents readsNone id 2 (Experiment.initState 0 []) c5Events).1.timestamps
      = [(0, [⟨0, 100000000, 200000000, 0⟩]), (1, [⟨0, 1100000000, 1200000000, 1⟩])]
    ∧ (⟨0, 100000000, 200000000⟩ : Experiment.TsRow)
        ∉ ((Experiment.runEvents readsNone id 2
              (Experiment.initState 0 []) c5Events).1.batch_timestamps).getD [] := by
  refine ⟨?_, ?_, ?_⟩ <;>
    norm_num +decide [Experiment.runEvents, Experiment.runEvent, Experiment.on_epoch_begin,
      Experiment.on_train_batch_begin, Experiment.on_train_batch_end, Experiment.on_epoch_end,
      Experiment.initState, Experiment.stampRow, Experiment.pyInt, c5Events,
      Chunking.runEvent, Chunking.on_epoch_begin, Chunking.on_train_batch_end,
      Chunking.on_epoch_end, Chunking.startState, Chunking.stopState, Chunking.stopReport,
      Chunking.mergeReport, Chunking.initState, readsNone, add_jcarbon_log]

end JCarbon

